import Mathlib

/-!
Verification development for the Dintist_Clink dentistry-clinic manager
(`src/main.py`).  The Python source is shallowly embedded: pure helpers
(`validate_phone`, `validate_fee`, the teeth-selection parsing / toggling /
serialization of `open_teeth_selector`) become Lean functions on
`String` / `List Char`, the SQLite-backed store becomes an explicit `DB`
state threaded through the operations (`save`, `delete_patient_gui`,
`modify_patient_gui` / `save_modifications`, `show_records`), and the
`session_scope` context manager becomes a combinator on state transformers.
Python floats are modelled exactly as decimal mantissa/exponent pairs (the claims under study depend only on
sign and parse success, never on binary rounding), Python `str` as Lean
`String` (a list of characters), and SQL rows as Lean structures in
insertion order.
-/

namespace DintistClinic

/-! ### Python string primitives -/

/-- Model of Python `str.strip()`: drop whitespace from both ends
(whitespace per `Char.isWhitespace`; Python also strips a few more exotic
Unicode spaces, which never occur in the claims under study). -/
def stripChars (l : List Char) : List Char :=
  ((l.dropWhile Char.isWhitespace).reverse.dropWhile Char.isWhitespace).reverse

/-- Model of Python's `s.strip()` at the `String` level. -/
def pyStrip (s : String) : String := String.mk (stripChars s.data)

/-- Model of Python `s.split(",")` (single-character separator): always
returns at least one piece; `"".split(",") == [""]`. -/
def splitComma : List Char → List (List Char)
  | [] => [[]]
  | c :: cs =>
    if c = ',' then [] :: splitComma cs
    else
      match splitComma cs with
      | [] => [[c]]
      | t :: ts => (c :: t) :: ts

/-- Model of Python `", ".join(pieces)` at the character level. -/
def joinSep : List (List Char) → List Char
  | [] => []
  | [t] => t
  | t :: u :: ts => t ++ ',' :: ' ' :: joinSep (u :: ts)

/-- Value of a string of decimal digits. -/
def digitsToNat (ds : List Char) : Nat :=
  ds.foldl (fun a c => a * 10 + (c.toNat - '0'.toNat)) 0

/-- Parse an optionally signed run of decimal digits (the exponent part of a
Python float literal). -/
def parseSignedInt : List Char → Option Int
  | '+' :: r => if r ≠ [] ∧ r.all Char.isDigit then some (digitsToNat r : Int) else none
  | '-' :: r => if r ≠ [] ∧ r.all Char.isDigit then some (-(digitsToNat r : Int)) else none
  | r => if r ≠ [] ∧ r.all Char.isDigit then some (digitsToNat r : Int) else none

/-- Split a float literal at the first `e`/`E`, if any. -/
def splitExp (l : List Char) : List Char × Option (List Char) :=
  match l.span (fun c => decide (c ≠ 'e' ∧ c ≠ 'E')) with
  | (m, []) => (m, none)
  | (m, _ :: r) => (m, some r)

/-- A decimal value `man * 10 ^ exp`, the exact form every decimal float
literal denotes.  Used to model Python float values without rounding (the
claims under study depend only on the sign and on parse success). -/
structure Dec where
  man : Int
  exp : Int
deriving DecidableEq

/-- The real number a `Dec` denotes. -/
def Dec.toRat (d : Dec) : Rat := (d.man : Rat) * (10 : Rat) ^ d.exp

/-- Parse the unsigned mantissa of a Python float literal (`digits`,
`digits.`, `digits.digits` or `.digits`), returning the combined digit value
and the number of fractional digits. -/
def parseUnsignedMantissa (l : List Char) : Option (Nat × Nat) :=
  let ip := l.takeWhile Char.isDigit
  let rest := l.dropWhile Char.isDigit
  match rest with
  | [] => if ip = [] then none else some (digitsToNat ip, 0)
  | '.' :: fr =>
    if fr.all Char.isDigit ∧ (ip ≠ [] ∨ fr ≠ []) then
      some (digitsToNat ip * 10 ^ fr.length + digitsToNat fr, fr.length)
    else none
  | _ => none

/-- Model of Python's `float(s)` builtin on decimal literals, with the
parsed value represented exactly: surrounding whitespace is ignored, then an
optional sign, a mantissa and an optional exponent are read.  (The special
spellings `inf`/`infinity`/`nan` and underscore digit separators are outside
the model; no claim depends on them.) -/
def pyFloat (s : String) : Option Dec :=
  let l := stripChars s.data
  let signed : Int × List Char :=
    match l with
    | '+' :: r => (1, r)
    | '-' :: r => (-1, r)
    | r => (1, r)
  let me := splitExp signed.2
  match parseUnsignedMantissa me.1, me.2 with
  | some (m, k), none => some ⟨signed.1 * m, -(k : Int)⟩
  | some (m, k), some ed =>
    match parseSignedInt ed with
    | some ex => some ⟨signed.1 * m, ex - k⟩
    | none => none
  | none, _ => none

/-! ### Utility functions (`validate_phone`, `validate_fee`) -/

/-- The part of the phone string that must be all digits: an optional
leading `+` is skipped (regex `^\+?\d{8,15}$`). -/
def phoneBody : List Char → List Char
  | '+' :: r => r
  | l => l

/-- Function `validate_phone` from `src/main.py`: accepts an optional `+` followed by
8 to 15 digits, returning the phone unchanged, else `none`. -/
def validate_phone (phone : String) : Option String :=
  let body := phoneBody phone.data
  if 8 ≤ body.length ∧ body.length ≤ 15 ∧ body.all Char.isDigit then some phone
  else none

/-- Function `validate_fee` from `src/main.py`: `float(fee)` inside `try`, returning
the value if it is `>= 0`; a parse failure or a negative value yields
`None` (the negative case falls through to the trailing `return None`).
The float comparison `f >= 0` holds exactly when the mantissa is
non-negative, since `10 ^ exp > 0` (theorem `Dec.toRat_nonneg_iff` below
proves the two conditions equivalent). -/
def validate_fee (fee : String) : Option Dec :=
  match pyFloat fee with
  | some f => if 0 ≤ f.man then some f else none
  | none => none

/-! ### Lexicographic order on tokens (Python string comparison) -/

/-- Python's `<=` on strings: lexicographic by code point. -/
def lexLeChars : List Char → List Char → Bool
  | [], _ => true
  | _ :: _, [] => false
  | a :: as, b :: bs => if a < b then true else if b < a then false else lexLeChars as bs

/-- The ordering used by Python's `sorted` on the selection tokens. -/
def tokLe (a b : List Char) : Prop := lexLeChars a b = true

instance : DecidableRel tokLe := fun _ _ => instDecidableEqBool _ _

/-! ### Teeth selection model (`open_teeth_selector`) -/

/-- The initialization loop of `open_teeth_selector`: split the stored
string on commas, strip each piece, skip empty pieces, and collect the rest
into the selection set (modelled as a duplicate-free list). -/
def parseSelection (initial_selection : String) : List String :=
  if initial_selection = "" then []
  else
    ((((splitComma initial_selection.data).map stripChars).filter
        (fun t => t ≠ [])).map (fun t => String.mk t)).dedup

/-- The set update performed by `toggle_tooth` in `open_teeth_selector`:
remove the identifier if selected, else add it (the accompanying button
re-styling is presentation only). -/
def toggleTooth (selected_teeth : List String) (tooth_id : String) : List String :=
  if tooth_id ∈ selected_teeth then selected_teeth.erase tooth_id
  else selected_teeth ++ [tooth_id]

/-- Handler `toggle_tooth(qabbr, num)` builds the identifier `f"{qabbr}{num}"` and
toggles it. -/
def toggle_tooth (selected_teeth : List String) (qabbr : String) (num : Nat) : List String :=
  toggleTooth selected_teeth (qabbr ++ toString num)

/-- The `on_ok` serialization: `", ".join(sorted(selected_teeth))`. -/
def serializeSelection (selected_teeth : List String) : String :=
  String.mk (joinSep ((selected_teeth.map String.data).insertionSort tokLe))

/-! ### Data model (`Patient`, `Appointment`, the SQLite store) -/

/-- A row of the `patients` table.  The nullable SQL columns
`treatment_type` / `teeth_location` always receive (possibly empty) strings
from the forms, so they are modelled as `String`. -/
structure Patient where
  id : Nat
  patient_name : String
  phone_number : String
  treatment_type : String
  teeth_location : String
deriving DecidableEq

/-- A row of the `appointments` table; dates are abstract day numbers and
the float `fee` column is an optional rational. -/
structure Appointment where
  id : Nat
  appointment_date : Int
  treatment_type : String
  dentist : String
  fee : Option Dec
  notes : String
  patient_id : Nat
deriving DecidableEq

/-- The persistent store: both tables in insertion (rowid) order, plus the
next auto-increment primary keys. -/
structure DB where
  patients : List Patient
  appointments : List Appointment
  nextPatientId : Nat
  nextAppointmentId : Nat
deriving DecidableEq

def emptyDB : DB := ⟨[], [], 0, 0⟩

/-- Lookup `session.query(Patient).filter_by(phone_number=phone).first()`. -/
def findPatientByPhone (db : DB) (phone : String) : Option Patient :=
  db.patients.find? (fun p => p.phone_number = phone)

/-- The appointments owned by patient `pid` (the `Patient.appointments`
relationship). -/
def appointmentsOf (db : DB) (pid : Nat) : List Appointment :=
  db.appointments.filter (fun a => a.patient_id = pid)

/-- Well-formedness guaranteed by SQLite for any reachable store: primary
keys are below the auto-increment counter and unique, and the `UNIQUE`
constraint on `phone_number` holds. -/
def WF (db : DB) : Prop :=
  (∀ p ∈ db.patients, p.id < db.nextPatientId) ∧
  (db.patients.map (fun p => p.id)).Nodup ∧
  (db.patients.map (fun p => p.phone_number)).Nodup

instance (db : DB) : Decidable (WF db) := by
  unfold WF; infer_instance

/-! ### Store operations -/

/-- The `with session_scope()` block of `save` in
`add_patient_and_appointment_gui` (src/main.py lines 353-378): look the
patient up by phone; create it if absent, else overwrite its name,
treatment type and teeth location; then attach a new appointment. -/
def saveCore (db : DB) (name phone patient_treatment teeth_location : String)
    (app_date : Int) (appointment_treatment dentist : String)
    (fee_val : Option Dec) (notes_val : String) : DB :=
  match findPatientByPhone db phone with
  | none =>
    let patient : Patient :=
      ⟨db.nextPatientId, name, phone, patient_treatment, teeth_location⟩
    let new_app : Appointment :=
      ⟨db.nextAppointmentId, app_date, appointment_treatment, dentist, fee_val,
        notes_val, patient.id⟩
    ⟨db.patients ++ [patient], db.appointments ++ [new_app],
      db.nextPatientId + 1, db.nextAppointmentId + 1⟩
  | some p =>
    let p' : Patient :=
      { p with
        patient_name := name
        treatment_type := patient_treatment
        teeth_location := teeth_location }
    let new_app : Appointment :=
      ⟨db.nextAppointmentId, app_date, appointment_treatment, dentist, fee_val,
        notes_val, p.id⟩
    ⟨db.patients.map (fun q => if q.id = p.id then p' else q),
      db.appointments ++ [new_app], db.nextPatientId, db.nextAppointmentId + 1⟩

/-- The whole `save` handler of `add_patient_and_appointment_gui`
(src/main.py lines 330-384): validation first (each `raise ValueError`
becomes an `Except.error` with the same message), then the transactional
block.  Note that a `None` result of `validate_fee` is NOT treated as an
error by the source: it is stored as the appointment's fee. -/
def savePatientAndAppointment (db : DB)
    (name_raw phone_raw patient_treatment_raw teeth_location : String)
    (app_date : Int) (appointment_treatment_raw dentist_raw fee_raw notes_raw : String) :
    Except String DB :=
  let name := pyStrip name_raw
  if name = "" then .error "Patient name cannot be empty."
  else
    match validate_phone (pyStrip phone_raw) with
    | none => .error "Invalid phone number."
    | some phone =>
      let patient_treatment := pyStrip patient_treatment_raw
      let appointment_treatment := pyStrip appointment_treatment_raw
      if appointment_treatment = "" then .error "Appointment treatment type is required."
      else
        let dentist := pyStrip dentist_raw
        if dentist = "" then .error "Dentist name is required."
        else
          let fee_val := validate_fee (pyStrip fee_raw)
          let notes_val := pyStrip notes_raw
          .ok (saveCore db name phone patient_treatment teeth_location app_date
            appointment_treatment dentist fee_val notes_val)

/-- Handler `delete_patient_gui` (src/main.py lines 448-469): validate the phone,
look the patient up (absent -> `ValueError("Patient not found.")`), ask for
confirmation, and on yes `session.delete(patient)`, whose
`cascade="all, delete-orphan"` relationship also removes every appointment
whose `patient_id` is the deleted patient's id. -/
def deletePatientByPhone (db : DB) (phone_raw : String) (confirm : Bool) :
    Except String DB :=
  match validate_phone (pyStrip phone_raw) with
  | none => .error "Invalid phone number."
  | some phone =>
    match findPatientByPhone db phone with
    | none => .error "Patient not found."
    | some patient =>
      if confirm then
        .ok ⟨db.patients.filter (fun q => q.id ≠ patient.id),
          db.appointments.filter (fun a => a.patient_id ≠ patient.id),
          db.nextPatientId, db.nextAppointmentId⟩
      else .ok db

/-- Callback `save_modifications` inside `modify_patient_gui` (src/main.py lines
509-522).  By the time this button callback runs, the `with session_scope()`
block of `modify_patient_gui` has already exited: the session was committed
and closed while the dialog was being laid out, so `patient` is a detached
instance.  The attribute assignments mutate only that detached in-memory
object; no session flushes them, so the store is returned unchanged. -/
def save_modifications (db : DB) (patient : Patient)
    (new_name_raw new_treatment_raw teeth : String) : Except String (DB × Patient) :=
  let new_name := pyStrip new_name_raw
  if new_name = "" then .error "Patient name cannot be empty."
  else
    .ok (db,
      { patient with
        patient_name := new_name
        treatment_type := pyStrip new_treatment_raw
        teeth_location := teeth })

/-- Handler `modify_patient_gui` (src/main.py lines 471-527) composed with its
`save_modifications` callback: phone validation and lookup happen inside the
session; the later field edits happen on the detached instance (see
`save_modifications`). -/
def modify_patient_flow (db : DB)
    (phone_raw new_name_raw new_treatment_raw teeth : String) :
    Except String (DB × Patient) :=
  match validate_phone (pyStrip phone_raw) with
  | none => .error "Invalid phone number."
  | some phone =>
    match findPatientByPhone db phone with
    | none => .error "Patient not found."
    | some patient => save_modifications db patient new_name_raw new_treatment_raw teeth

/-! ### Search (`show_records`) -/

/-- ASCII lower-casing, modelling SQLite's `lower()`, which folds ASCII
letters only (as does Lean's `Char.toLower`). -/
def lowerChars (l : List Char) : List Char := l.map Char.toLower

/-- Semantics of the SQL `LIKE` operator on the already-lowercased operands:
`%` in the pattern matches any run of characters (realized as: the rest of
the pattern matches some suffix of the text), `_` matches exactly one
character, and every other pattern character matches itself.  The pattern
is the raw user term wrapped in percents, with no ESCAPE clause, so `%` and
`_` inside the term are live wildcards. -/
def likeMatch : List Char → List Char → Bool
  | [], t => t.isEmpty
  | p :: ps, t =>
    if p = '%' then (t.tails).any (fun s => likeMatch ps s)
    else
      match t with
      | [] => false
      | c :: ts => (p = '_' || p = c) && likeMatch ps ts

/-- Model of `column.ilike(f"%{query}%")`.  On SQLite, SQLAlchemy compiles
`ilike` to `lower(column) LIKE lower(pattern)`; `lower` fixes `%` and `'_'`
and distributes over the concatenation, so the lowered pattern is
`'%' :: lowerChars query ++ ['%']`.  After lowering, `LIKE`'s own ASCII
case folding is the identity, so the remaining comparison is exact. -/
def ciContains (hay needle : String) : Bool :=
  likeMatch ('%' :: (lowerChars needle.data ++ ['%'])) (lowerChars hay.data)

/-- The disjunctive filter of `show_records`: name, phone, treatment type or
teeth location contains the query, or some owned appointment's treatment
type does. -/
def patientMatches (db : DB) (q : String) (p : Patient) : Bool :=
  ciContains p.patient_name q || ciContains p.phone_number q ||
  ciContains p.treatment_type q || ciContains p.teeth_location q ||
  (appointmentsOf db p.id).any (fun a => ciContains a.treatment_type q)

/-- The sort key of `sorted(patient.appointments, key=lambda a: a.appointment_date)`. -/
def dateLe (a b : Appointment) : Prop := a.appointment_date ≤ b.appointment_date

instance : DecidableRel dateLe := fun a b => Int.decLe a.appointment_date b.appointment_date

instance : IsTotal Appointment dateLe := ⟨fun a b => le_total a.appointment_date b.appointment_date⟩

instance : IsTrans Appointment dateLe := ⟨fun _ _ _ h1 h2 => le_trans h1 h2⟩

/-- Method `show_records` (src/main.py lines 176-217), with the treeview rendering
abstracted away: it returns, per displayed patient, the patient row together
with that patient's appointments sorted ascending by date (`sorted` is a
stable sort, modelled by insertion sort).  An empty or absent query
(`if query:` is false) disables the filter. -/
def show_records (db : DB) (query : Option String) : List (Patient × List Appointment) :=
  let pats :=
    match query with
    | some q => if q = "" then db.patients else db.patients.filter (patientMatches db q)
    | none => db.patients
  pats.map (fun p => (p, (appointmentsOf db p.id).insertionSort dateLe))

/-- The `searchPatients` membership condition in the words of the spec
(section 4.1): name, phone, treatment type, teeth location, or at least one
owned appointment's treatment type case-insensitively contains the term.
Stated as a `Prop` to compare against the implementation's filter. -/
def specMatches (db : DB) (q : String) (p : Patient) : Prop :=
  List.IsInfix (lowerChars q.data) (lowerChars p.patient_name.data) ∨
  List.IsInfix (lowerChars q.data) (lowerChars p.phone_number.data) ∨
  List.IsInfix (lowerChars q.data) (lowerChars p.treatment_type.data) ∨
  List.IsInfix (lowerChars q.data) (lowerChars p.teeth_location.data) ∨
  ∃ a ∈ db.appointments, a.patient_id = p.id ∧
    List.IsInfix (lowerChars q.data) (lowerChars a.treatment_type.data)

instance (db : DB) (q : String) (p : Patient) : Decidable (specMatches db q p) := by
  unfold specMatches; infer_instance

/-! ### The transactional scope (`session_scope`) -/

/-- Context manager `session_scope` (src/main.py lines 62-74) as a combinator: the body runs
against the store and produces a working state plus, possibly, an exception.
On success the working state is committed; on an exception the session is
rolled back — the working state is discarded and the committed store stays
exactly as it was — and the exception is re-raised to the caller.  The first
component of the result is the store visible to subsequent reads; the second
is the propagated exception, if any. -/
def session_scope (db : DB) (body : DB → DB × Option String) : DB × Option String :=
  match body db with
  | (working, none) => (working, none)
  | (_, some e) => (db, some e)

/-! ### Properties of the token order -/

theorem lexLeChars_total : ∀ a b, lexLeChars a b = true ∨ lexLeChars b a = true := by
  intro a
  induction a with
  | nil => intro b; left; rfl
  | cons x xs ih =>
    intro b
    cases b with
    | nil => right; rfl
    | cons y ys =>
      rcases lt_trichotomy x y with h | h | h
      · left; simp [lexLeChars, h]
      · subst h
        rcases ih ys with h2 | h2
        · left; simp [lexLeChars, lt_irrefl, h2]
        · right; simp [lexLeChars, lt_irrefl, h2]
      · right; simp [lexLeChars, h]

theorem lexLeChars_trans : ∀ a b c, lexLeChars a b = true → lexLeChars b c = true →
    lexLeChars a c = true := by
  intro a
  induction a with
  | nil => intro b c _ _; rfl
  | cons x xs ih =>
    intro b c hab hbc
    cases b with
    | nil => simp [lexLeChars] at hab
    | cons y ys =>
      cases c with
      | nil => simp [lexLeChars] at hbc
      | cons z zs =>
        simp only [lexLeChars] at hab hbc ⊢
        split at hab
        · rename_i hxy
          split at hbc
          · rename_i hyz
            simp [lt_trans hxy hyz]
          · split at hbc
            · exact absurd hbc (by simp)
            · rename_i h1 h2
              have hyz : y = z := le_antisymm (not_lt.mp h2) (not_lt.mp h1)
              subst hyz
              simp [hxy]
        · split at hab
          · exact absurd hab (by simp)
          · rename_i h1 h2
            have hxy : x = y := le_antisymm (not_lt.mp h2) (not_lt.mp h1)
            subst hxy
            split at hbc
            · rename_i hyz; simp [hyz]
            · split at hbc
              · exact absurd hbc (by simp)
              · rename_i h3 h4
                have : x = z := le_antisymm (not_lt.mp h4) (not_lt.mp h3)
                subst this
                simp [lt_irrefl, ih _ _ hab hbc]

theorem lexLeChars_antisymm : ∀ a b, lexLeChars a b = true → lexLeChars b a = true → a = b := by
  intro a
  induction a with
  | nil =>
    intro b _ hba
    cases b with
    | nil => rfl
    | cons y ys => simp [lexLeChars] at hba
  | cons x xs ih =>
    intro b hab hba
    cases b with
    | nil => simp [lexLeChars] at hab
    | cons y ys =>
      simp only [lexLeChars] at hab hba
      split at hab
      · rename_i hxy
        rw [if_neg (lt_asymm hxy), if_pos hxy] at hba
        exact absurd hba (by simp)
      · split at hab
        · exact absurd hab (by simp)
        · rename_i h1 h2
          have hxy : x = y := le_antisymm (not_lt.mp h2) (not_lt.mp h1)
          subst hxy
          rw [if_neg h1, if_neg h1] at hba
          rw [ih _ hab hba]

instance : IsTotal (List Char) tokLe := ⟨fun a b => lexLeChars_total a b⟩

instance : IsTrans (List Char) tokLe := ⟨fun a b c => lexLeChars_trans a b c⟩

instance : IsAntisymm (List Char) tokLe := ⟨fun a b => lexLeChars_antisymm a b⟩

/-! ### Shared helper lemmas -/

theorem insertionSort_congr_perm {a b : List (List Char)} (h : a.Perm b) :
    a.insertionSort tokLe = b.insertionSort tokLe :=
  List.eq_of_perm_of_sorted
    (((List.perm_insertionSort tokLe a).trans h).trans (List.perm_insertionSort tokLe b).symm)
    (List.sorted_insertionSort tokLe a) (List.sorted_insertionSort tokLe b)

/-- Serialization only depends on the selection as a set. -/
theorem serializeSelection_congr_perm {a b : List String} (h : a.Perm b) :
    serializeSelection a = serializeSelection b := by
  unfold serializeSelection
  rw [insertionSort_congr_perm (h.map String.data)]

theorem parseSelection_nodup (s : String) : (parseSelection s).Nodup := by
  unfold parseSelection
  split
  · exact List.nodup_nil
  · exact List.nodup_dedup _

/-- A double toggle is a permutation-level no-op on duplicate-free
selections. -/
theorem toggleTooth_toggleTooth_perm {sel : List String} (hnd : sel.Nodup) (t : String) :
    (toggleTooth (toggleTooth sel t) t).Perm sel := by
  by_cases ht : t ∈ sel
  · have h1 : toggleTooth sel t = sel.erase t := if_pos ht
    have h2 : t ∉ sel.erase t := hnd.not_mem_erase
    have h3 : toggleTooth (sel.erase t) t = sel.erase t ++ [t] := if_neg h2
    rw [h1, h3]
    exact (List.perm_append_singleton t (sel.erase t)).trans (List.perm_cons_erase ht).symm
  · have h1 : toggleTooth sel t = sel ++ [t] := if_neg ht
    have h2 : t ∈ sel ++ [t] := List.mem_append_right sel (List.mem_singleton_self t)
    have h3 : toggleTooth (sel ++ [t]) t = (sel ++ [t]).erase t := if_pos h2
    rw [h1, h3, List.erase_append_right _ ht, List.erase_cons_head, List.append_nil]

/-! ### C6: double toggle is a no-op up to serialization -/

/-- C6: for every serialized teeth string `s` and every token `t`,
toggling `t` twice on the parsed set and serializing gives the same string
as serializing the parsed set directly; the toggle removes the token if
present, else adds it, with no other change. -/
theorem c6_toggle_roundtrip : ∀ (s t : String),
    serializeSelection (toggleTooth (toggleTooth (parseSelection s) t) t)
      = serializeSelection (parseSelection s) ∧
    (t ∈ parseSelection s → toggleTooth (parseSelection s) t = (parseSelection s).erase t) ∧
    (t ∉ parseSelection s → toggleTooth (parseSelection s) t = parseSelection s ++ [t]) := by
  intro s t
  refine ⟨serializeSelection_congr_perm
    (toggleTooth_toggleTooth_perm (parseSelection_nodup s) t), fun ht => if_pos ht,
    fun ht => if_neg ht⟩

theorem c6_witness :
    serializeSelection (toggleTooth (toggleTooth (parseSelection "LL1, UL8") "UR3") "UR3")
      = serializeSelection (parseSelection "LL1, UL8") ∧
    toggleTooth (parseSelection "LL1, UL8") "LL1" = (parseSelection "LL1, UL8").erase "LL1" :=
  ⟨(c6_toggle_roundtrip "LL1, UL8" "UR3").1,
    (c6_toggle_roundtrip "LL1, UL8" "LL1").2.1 (by decide)⟩

/-! ### C8: serialization sorts lexicographically and joins with ", " -/

/-- C8: serialization emits the tokens of the selection sorted
lexicographically (a sorted permutation of the input tokens), joined with
`", "`; on the set `{LR3, UL8, LL1}` it yields exactly `"LL1, LR3, UL8"`. -/
theorem c8_serialize_canonical :
    (∀ sel : List String,
      List.Sorted tokLe ((sel.map String.data).insertionSort tokLe) ∧
      ((sel.map String.data).insertionSort tokLe).Perm (sel.map String.data) ∧
      serializeSelection sel = String.mk (joinSep ((sel.map String.data).insertionSort tokLe))) ∧
    serializeSelection ["LR3", "UL8", "LL1"] = "LL1, LR3, UL8" := by
  refine ⟨fun sel => ⟨List.sorted_insertionSort tokLe _, List.perm_insertionSort tokLe _, rfl⟩,
    by decide⟩

/-! ### C10: parse after serialize recovers the token set -/

theorem splitComma_no_comma {t : List Char} (h : ',' ∉ t) : splitComma t = [t] := by
  induction t with
  | nil => rfl
  | cons c cs ih =>
    have hc : c ≠ ',' := fun he => h (he ▸ List.mem_cons_self c cs)
    have hcs : ',' ∉ cs := fun hm => h (List.mem_cons_of_mem c hm)
    simp [splitComma, hc, ih hcs]

theorem splitComma_token_comma {t : List Char} (h : ',' ∉ t) (r : List Char) :
    splitComma (t ++ ',' :: r) = t :: splitComma r := by
  induction t with
  | nil => simp [splitComma]
  | cons c cs ih =>
    have hc : c ≠ ',' := fun he => h (he ▸ List.mem_cons_self c cs)
    have hcs : ',' ∉ cs := fun hm => h (List.mem_cons_of_mem c hm)
    simp [splitComma, hc, ih hcs]

theorem splitComma_cons_ne {c : Char} {l t : List Char} {ts : List (List Char)}
    (hc : c ≠ ',') (h : splitComma l = t :: ts) :
    splitComma (c :: l) = (c :: t) :: ts := by
  simp [splitComma, hc, h]

theorem splitComma_joinSep : ∀ (rest : List (List Char)) (t : List Char), ',' ∉ t →
    (∀ x ∈ rest, ',' ∉ x) →
    splitComma (joinSep (t :: rest)) = t :: rest.map (fun u => ' ' :: u) := by
  intro rest
  induction rest with
  | nil => intro t ht _; simpa [joinSep] using splitComma_no_comma ht
  | cons u ts ih =>
    intro t ht hrest
    have hu : ',' ∉ u := hrest u (List.mem_cons_self u ts)
    have hts : ∀ x ∈ ts, ',' ∉ x := fun x hx => hrest x (List.mem_cons_of_mem u hx)
    have hrec : splitComma (joinSep (u :: ts)) = u :: ts.map (fun v => ' ' :: v) := ih u hu hts
    calc splitComma (joinSep (t :: u :: ts))
      = splitComma (t ++ ',' :: ' ' :: joinSep (u :: ts)) := rfl
    _ = t :: splitComma (' ' :: joinSep (u :: ts)) := splitComma_token_comma ht _
    _ = t :: (' ' :: u) :: ts.map (fun v => ' ' :: v) := by
          rw [splitComma_cons_ne (by decide) hrec]
    _ = t :: (u :: ts).map (fun v => ' ' :: v) := rfl

theorem stripChars_space_cons (l : List Char) : stripChars (' ' :: l) = stripChars l := by
  simp [stripChars, List.dropWhile_cons]

theorem joinSep_ne_nil {t : List Char} (rest : List (List Char)) (ht : t ≠ []) :
    joinSep (t :: rest) ≠ [] := by
  cases rest with
  | nil => simpa [joinSep] using ht
  | cons u ts => simp [joinSep, ht]

/-- C10: for every duplicate-free set of tokens that are non-empty,
comma-free and carry no surrounding whitespace (stripping them is the
identity), parsing the serialization recovers exactly the same set of
tokens. -/
theorem c10_parse_serialize_roundtrip (T : List String) (hnd : T.Nodup)
    (h : ∀ t ∈ T, t.data ≠ [] ∧ ',' ∉ t.data ∧ stripChars t.data = t.data) :
    (parseSelection (serializeSelection T)).Perm T := by
  have hdata_nodup : (T.map String.data).Nodup :=
    hnd.map (fun a b hab => congrArg String.mk hab)
  have hperm : ((T.map String.data).insertionSort tokLe).Perm (T.map String.data) :=
    List.perm_insertionSort tokLe _
  have hmem : ∀ x ∈ (T.map String.data).insertionSort tokLe,
      x ≠ [] ∧ ',' ∉ x ∧ stripChars x = x := by
    intro x hx
    have hx2 : x ∈ T.map String.data := hperm.mem_iff.mp hx
    obtain ⟨t, htT, rfl⟩ := List.mem_map.mp hx2
    exact h t htT
  have hsort_nodup : ((T.map String.data).insertionSort tokLe).Nodup :=
    hperm.symm.nodup hdata_nodup
  cases hts : (T.map String.data).insertionSort tokLe with
  | nil =>
    have hmap : (T.map String.data).Perm [] := by rw [← hts]; exact hperm.symm
    have hTnil : T = [] := List.map_eq_nil_iff.mp hmap.eq_nil
    subst hTnil
    simp [serializeSelection, parseSelection, joinSep]
  | cons t rest =>
    have hmem' : ∀ x ∈ t :: rest, x ≠ [] ∧ ',' ∉ x ∧ stripChars x = x := by
      rw [← hts]; exact hmem
    have ht := hmem' t (List.mem_cons_self t rest)
    have hsplit : splitComma (joinSep (t :: rest)) = t :: rest.map (fun u => ' ' :: u) :=
      splitComma_joinSep rest t ht.2.1
        (fun x hx => (hmem' x (List.mem_cons_of_mem t hx)).2.1)
    have hne : joinSep (t :: rest) ≠ [] := joinSep_ne_nil rest ht.1
    have hser : serializeSelection T = String.mk (joinSep (t :: rest)) := by
      unfold serializeSelection; rw [hts]
    have hstrip : (splitComma (joinSep (t :: rest))).map stripChars = t :: rest := by
      rw [hsplit]
      simp only [List.map_cons, List.map_map, ht.2.2]
      congr 1
      have : ∀ u ∈ rest, (stripChars ∘ fun v => ' ' :: v) u = id u := by
        intro u hu
        have hu' := hmem' u (List.mem_cons_of_mem t hu)
        simp [Function.comp, stripChars_space_cons, hu'.2.2]
      rw [List.map_congr_left this, List.map_id]
    have hfilter : ((splitComma (joinSep (t :: rest))).map stripChars).filter
        (fun x => x ≠ []) = t :: rest := by
      rw [hstrip]
      apply List.filter_eq_self.mpr
      intro x hx
      have := (hmem' x hx).1
      simpa using this
    have hmkeq : parseSelection (String.mk (joinSep (t :: rest)))
        = (t :: rest).map String.mk := by
      unfold parseSelection
      rw [if_neg (by simpa [String.ext_iff] using hne)]
      show ((((splitComma (joinSep (t :: rest))).map stripChars).filter
        (fun x => x ≠ [])).map String.mk).dedup = (t :: rest).map String.mk
      rw [hfilter]
      apply List.dedup_eq_self.mpr
      exact ((hts ▸ hsort_nodup).map (fun a b hab => congrArg String.data hab))
    rw [hser, hmkeq]
    have hfinal : ((t :: rest).map String.mk).Perm ((T.map String.data).map String.mk) :=
      (hts ▸ hperm).map String.mk
    refine hfinal.trans ?_
    have : (T.map String.data).map String.mk = T := by
      rw [List.map_map]
      exact List.map_id'' (fun a => rfl) T
    rw [this]

theorem c10_witness :
    (parseSelection (serializeSelection ["LR3", "UL8", "LL1"])).Perm ["LR3", "UL8", "LL1"] :=
  c10_parse_serialize_roundtrip ["LR3", "UL8", "LL1"] (by decide) (by decide)

/-! ### C9: fee validation -/

/-- The float comparison `f >= 0` in `validate_fee`, expressed on the exact
decimal value: it holds iff the mantissa is non-negative. -/
theorem Dec.toRat_nonneg_iff (d : Dec) : 0 ≤ d.toRat ↔ 0 ≤ d.man := by
  have hpos : (0 : Rat) < (10 : Rat) ^ d.exp :=
    zpow_pos (by norm_num) d.exp
  unfold Dec.toRat
  rw [mul_nonneg_iff_of_pos_right hpos]
  exact Int.cast_nonneg

theorem Dec.toRat_neg_iff (d : Dec) : d.toRat < 0 ↔ d.man < 0 := by
  rw [← not_le, ← not_le, not_iff_not]
  exact d.toRat_nonneg_iff

/-- C9: for every input string, `validate_fee` returns the parsed float
value when the string parses as a float `>= 0`, and returns nothing both for
strings parsing to a negative value and for non-numeric strings; on the
spec's examples, `"25.5"` yields the value `25.5`, while `"-1"` and `"abc"`
yield nothing. -/
theorem c9_validate_fee :
    (∀ s : String,
      (∀ f, pyFloat s = some f →
        (0 ≤ f.toRat → validate_fee s = some f) ∧
        (f.toRat < 0 → validate_fee s = none)) ∧
      (pyFloat s = none → validate_fee s = none)) ∧
    validate_fee "25.5" = some ⟨255, -1⟩ ∧ Dec.toRat ⟨255, -1⟩ = (25.5 : Rat) ∧
    validate_fee "-1" = none ∧ validate_fee "abc" = none := by
  refine ⟨fun s => ⟨fun f hf => ⟨fun h0 => ?_, fun h0 => ?_⟩, fun hf => ?_⟩,
    by decide, ?_, by decide, by decide⟩
  · unfold validate_fee
    rw [hf]
    show (if 0 ≤ f.man then some f else none) = some f
    rw [if_pos ((Dec.toRat_nonneg_iff f).mp h0)]
  · unfold validate_fee
    rw [hf]
    show (if 0 ≤ f.man then some f else none) = none
    rw [if_neg (not_le.mpr ((Dec.toRat_neg_iff f).mp h0))]
  · unfold validate_fee
    rw [hf]
  · show ((255 : Int) : Rat) * (10 : Rat) ^ (-1 : Int) = (25.5 : Rat)
    norm_num [zpow_neg]

theorem c9_witness :
    pyFloat "2.5" = some ⟨25, -1⟩ ∧ validate_fee "2.5" = some ⟨25, -1⟩ :=
  ⟨by decide, ((c9_validate_fee.1 "2.5").1 ⟨25, -1⟩ (by decide)).1
    (by rw [Dec.toRat_nonneg_iff]; decide)⟩

/-! ### Concrete stores shared by several witnesses -/

def annPatient : Patient := ⟨1, "Ann", "+10000000", "Cleaning", ""⟩

def dbAnn : DB := ⟨[annPatient], [], 2, 1⟩

deriving instance DecidableEq for Except

/-! ### C4: the transactional scope is atomic -/

/-- C4: every store operation modelled as a `session_scope` body is
atomic: whenever the body ends in an exception, the whole working state is
discarded — the committed store seen by subsequent reads is exactly the
store from before the operation — and the error is surfaced to the caller;
when the body succeeds, its working state is committed. -/
theorem c4_session_scope_atomic : ∀ (db : DB) (body : DB → DB × Option String),
    (∀ working e, body db = (working, some e) → session_scope db body = (db, some e)) ∧
    (∀ working, body db = (working, none) → session_scope db body = (working, none)) := by
  intro db body
  constructor
  · intro w e h
    unfold session_scope
    rw [h]
  · intro w h
    unfold session_scope
    rw [h]

theorem c4_witness :
    session_scope dbAnn (fun _ => (emptyDB, some "UNIQUE constraint failed"))
      = (dbAnn, some "UNIQUE constraint failed") :=
  (c4_session_scope_atomic dbAnn _).1 emptyDB "UNIQUE constraint failed" rfl

/-! ### C2: modify-by-phone never persists its changes (code bug) -/

/-- C2 (code bug): the modify workflow reports success yet leaves the
persistent store untouched: `save_modifications` runs as a button callback
after the `with session_scope()` block of `modify_patient_gui` has already
committed and closed its session, so the field assignments land on a
detached instance and are never flushed.  Concretely, with one stored
patient named `"Ann"`, modifying name/treatment to `"Bob"`/`"Filling"`
returns success, the store is unchanged, and a subsequent read by the same
phone number still returns `"Ann"` — contradicting the claim that a
subsequent read returns the updated values.  (The NotFound half of the
claim does hold, as the last conjunct shows.) -/
theorem c2_modify_update_lost :
    modify_patient_flow dbAnn "+10000000" "Bob" "Filling" "" =
      .ok (dbAnn, ⟨1, "Bob", "+10000000", "Filling", ""⟩) ∧
    (findPatientByPhone dbAnn "+10000000").map (fun p => p.patient_name) = some "Ann" ∧
    modify_patient_flow emptyDB "+10000000" "Bob" "Filling" "" =
      .error "Patient not found." := by
  refine ⟨by decide, by decide, by decide⟩

/-! ### C3: an invalid fee does not abort the add workflow (corrected) -/

/-- Validation lemma shared by the add-workflow claims: once the four
`raise`-guarded checks pass, `save` always reaches the transactional block
and succeeds — a `None` from `validate_fee` is not a fifth check. -/
theorem savePatientAndAppointment_valid (db : DB)
    {name_raw phone_raw : String} (patient_treatment_raw teeth_location : String)
    (app_date : Int) {appointment_treatment_raw dentist_raw : String}
    (fee_raw notes_raw : String) {phone : String}
    (hn : pyStrip name_raw ≠ "") (hp : validate_phone (pyStrip phone_raw) = some phone)
    (ht : pyStrip appointment_treatment_raw ≠ "") (hd : pyStrip dentist_raw ≠ "") :
    savePatientAndAppointment db name_raw phone_raw patient_treatment_raw teeth_location
      app_date appointment_treatment_raw dentist_raw fee_raw notes_raw =
    .ok (saveCore db (pyStrip name_raw) phone (pyStrip patient_treatment_raw)
      teeth_location app_date (pyStrip appointment_treatment_raw) (pyStrip dentist_raw)
      (validate_fee (pyStrip fee_raw)) (pyStrip notes_raw)) := by
  simp only [savePatientAndAppointment, hn, hp, ht, hd]
  simp

/-- C3 is false of the code (counterexample): submitting the form with
the negative fee string `"-1"` (all other fields valid) does not raise any
error and does reach the store: the result is a success carrying one new
patient row and one new appointment row. -/
theorem c3_counterexample :
    (savePatientAndAppointment emptyDB "Ann" "+12345678" "Cleaning" "" 0 "Filling"
        "Mohamed" "-1" "").toOption.map (fun d => (d.patients.length, d.appointments.length))
      = some (1, 1) := by
  decide

/-- C3 (amended): a negative or non-numeric non-empty fee string does
not raise a `ValidationError` and does not abort the add workflow:
`validate_fee` yields nothing, the workflow proceeds — the patient is
upserted and the appointment is created — with the appointment's fee left
unset. -/
theorem c3_amended (db : DB) (name_raw phone_raw patient_treatment_raw teeth_location : String)
    (app_date : Int) (appointment_treatment_raw dentist_raw fee_raw notes_raw : String)
    (phone : String)
    (hn : pyStrip name_raw ≠ "") (hp : validate_phone (pyStrip phone_raw) = some phone)
    (ht : pyStrip appointment_treatment_raw ≠ "") (hd : pyStrip dentist_raw ≠ "")
    (hfee : validate_fee (pyStrip fee_raw) = none) :
    ∃ db', savePatientAndAppointment db name_raw phone_raw patient_treatment_raw
        teeth_location app_date appointment_treatment_raw dentist_raw fee_raw notes_raw
      = .ok db' ∧
      db'.appointments.length = db.appointments.length + 1 ∧
      db'.appointments.getLast?.map (fun a => a.fee) = some none := by
  refine ⟨_, savePatientAndAppointment_valid db patient_treatment_raw teeth_location
    app_date fee_raw notes_raw hn hp ht hd, ?_, ?_⟩
  · cases h : findPatientByPhone db phone <;>
      simp [saveCore, h]
  · cases h : findPatientByPhone db phone <;>
      simp [saveCore, h, List.getLast?_concat, hfee]

theorem c3_witness :
    ∃ db', savePatientAndAppointment emptyDB "Bob" "+87654321" "X" "" 5 "Crown" "Noha"
        "abc" "" = .ok db' ∧
      db'.appointments.length = emptyDB.appointments.length + 1 ∧
      db'.appointments.getLast?.map (fun a => a.fee) = some none :=
  c3_amended emptyDB "Bob" "+87654321" "X" "" 5 "Crown" "Noha" "abc" "" "+87654321"
    (by decide) (by decide) (by decide) (by decide) (by decide)

/-! ### C5: delete by phone, with cascade to appointments -/

theorem filter_patient_id_length (l : List Appointment) (pid : Nat) :
    (l.filter (fun a => a.patient_id ≠ pid)).length
      + (l.filter (fun a => a.patient_id = pid)).length = l.length := by
  induction l with
  | nil => rfl
  | cons a t ih =>
    simp only [List.filter_cons, List.length_cons]
    by_cases h : a.patient_id = pid
    · rw [if_neg (by simp [h]), if_pos (by simp [h])]
      simp only [List.length_cons]
      omega
    · rw [if_pos (by simp [h]), if_neg (by simp [h])]
      simp only [List.length_cons]
      omega

/-- C5: deleting by a (validated) phone fails with "Patient not found."
when no patient has that phone; when patient `p` has it, the confirmed
delete succeeds with a store in which `p`'s row is gone (all other patient
rows survive), every one of `p`'s appointment rows is gone (`N` rows, by the
length equation) while all other appointments survive, and a subsequent
query for appointments of `p`'s former id returns none. -/
theorem c5_delete_cascade (db : DB) (phone_raw phone : String)
    (hval : validate_phone (pyStrip phone_raw) = some phone) :
    (findPatientByPhone db phone = none →
      deletePatientByPhone db phone_raw true = .error "Patient not found.") ∧
    (∀ p, findPatientByPhone db phone = some p →
      ∃ db', deletePatientByPhone db phone_raw true = .ok db' ∧
        p ∉ db'.patients ∧
        (∀ q ∈ db.patients, q.id ≠ p.id → q ∈ db'.patients) ∧
        appointmentsOf db' p.id = [] ∧
        db'.appointments.length + (appointmentsOf db p.id).length
          = db.appointments.length ∧
        (∀ a ∈ db.appointments, a.patient_id ≠ p.id → a ∈ db'.appointments)) := by
  constructor
  · intro hnone
    simp only [deletePatientByPhone, hval, hnone]
  · intro p hp
    refine ⟨⟨db.patients.filter (fun q => q.id ≠ p.id),
      db.appointments.filter (fun a => a.patient_id ≠ p.id),
      db.nextPatientId, db.nextAppointmentId⟩, ?_, ?_, ?_, ?_, ?_, ?_⟩
    · simp only [deletePatientByPhone, hval, hp]
      rfl
    · intro hmem
      have := (List.mem_filter.mp hmem).2
      simp at this
    · intro q hq hqid
      exact List.mem_filter.mpr ⟨hq, by simpa using hqid⟩
    · show (db.appointments.filter (fun a => a.patient_id ≠ p.id)).filter
        (fun a => a.patient_id = p.id) = []
      refine List.filter_eq_nil_iff.mpr ?_
      intro a ha
      have := (List.mem_filter.mp ha).2
      simpa using this
    · exact filter_patient_id_length db.appointments p.id
    · intro a ha haid
      exact List.mem_filter.mpr ⟨ha, by simpa using haid⟩

def feePaid : Option Dec := some ⟨50, 0⟩

def dbAnnApps : DB :=
  ⟨[annPatient, ⟨2, "Bob", "+20000000", "Filling", ""⟩],
    [⟨1, 10, "Cleaning", "Noha", feePaid, "", 1⟩,
     ⟨2, 11, "Whitening", "Essam", none, "", 1⟩,
     ⟨3, 12, "Crown", "Mohamed", none, "", 2⟩], 3, 4⟩

theorem c5_witness :
    ∃ db', deletePatientByPhone dbAnnApps "+10000000" true = .ok db' ∧
      annPatient ∉ db'.patients ∧
      appointmentsOf db' annPatient.id = [] ∧
      db'.appointments.length + (appointmentsOf dbAnnApps annPatient.id).length
        = dbAnnApps.appointments.length := by
  rcases (c5_delete_cascade dbAnnApps "+10000000" "+10000000" (by decide)).2 annPatient
    (by decide) with ⟨db', h1, h2, _, h4, h5, _⟩
  exact ⟨db', h1, h2, h4, h5⟩

/-! ### C1: the add workflow is an upsert keyed by phone -/

theorem find?_append_none {α : Type} {l₁ l₂ : List α} {p : α → Bool}
    (h : l₁.find? p = none) : (l₁ ++ l₂).find? p = l₂.find? p := by
  induction l₁ with
  | nil => rfl
  | cons a t ih =>
    rw [List.cons_append]
    cases hpa : p a with
    | true =>
      rw [List.find?_cons, hpa] at h
      exact absurd h (by simp)
    | false =>
      rw [List.find?_cons, hpa] at h
      rw [List.find?_cons, hpa]
      exact ih h

theorem find?_map_update {l : List Patient} {pr : Patient → Bool} {p p' : Patient}
    (f : Patient → Patient) (hfind : l.find? pr = some p)
    (hf : ∀ q ∈ l, q ≠ p → f q = q) (hfp : f p = p') (hp' : pr p' = true) :
    (l.map f).find? pr = some p' := by
  induction l with
  | nil => simp at hfind
  | cons a t ih =>
    cases hpa : pr a with
    | true =>
      rw [List.find?_cons, hpa] at hfind
      have ha : a = p := by simpa using hfind
      subst ha
      rw [List.map_cons, hfp, List.find?_cons, hp']
    | false =>
      rw [List.find?_cons, hpa] at hfind
      have hfind' : t.find? pr = some p := hfind
      have hap : a ≠ p := by
        intro he
        have := List.find?_some hfind'
        rw [← he, hpa] at this
        exact absurd this (by simp)
      rw [List.map_cons, hf a (List.mem_cons_self a t) hap, List.find?_cons, hpa]
      exact ih hfind' (fun q hq hqp => hf q (List.mem_cons_of_mem a hq) hqp)

theorem filter_phone_eq_nil {l : List Patient} {phone : String}
    (h : l.find? (fun q => q.phone_number = phone) = none) :
    l.filter (fun q => q.phone_number = phone) = [] :=
  List.filter_eq_nil_iff.mpr (List.find?_eq_none.mp h)

theorem saveCore_none (db : DB) (name phone pt teeth : String) (date : Int)
    (at_ den : String) (fee : Option Dec) (no : String)
    (h : findPatientByPhone db phone = none) :
    saveCore db name phone pt teeth date at_ den fee no =
      ⟨db.patients ++ [⟨db.nextPatientId, name, phone, pt, teeth⟩],
       db.appointments ++ [⟨db.nextAppointmentId, date, at_, den, fee, no, db.nextPatientId⟩],
       db.nextPatientId + 1, db.nextAppointmentId + 1⟩ := by
  simp only [saveCore, h]

theorem saveCore_some (db : DB) (name phone pt teeth : String) (date : Int)
    (at_ den : String) (fee : Option Dec) (no : String) (p : Patient)
    (h : findPatientByPhone db phone = some p) :
    saveCore db name phone pt teeth date at_ den fee no =
      ⟨db.patients.map (fun q => if q.id = p.id then
          { p with
              patient_name := name
              treatment_type := pt
              teeth_location := teeth }
        else q),
       db.appointments ++ [⟨db.nextAppointmentId, date, at_, den, fee, no, p.id⟩],
       db.nextPatientId, db.nextAppointmentId + 1⟩ := by
  simp only [saveCore, h]

/-- C1: the add workflow with a validated phone is an upsert keyed by
phone: (i) if no patient with the phone exists, a new patient row carrying
the given name, treatment type and teeth location is appended; (ii) if such
a patient exists, exactly that row has its name, treatment type and teeth
location overwritten (the patient count is unchanged, lookup by the phone
returns the overwritten row, and every row with another phone survives);
(iii) running the workflow twice with the same phone but different names
leaves exactly one patient row keyed by that phone, bearing the latest
name. -/
theorem c1_upsert (db : DB) (phone : String)
    (name_raw phone_raw patient_treatment_raw teeth_location : String) (app_date : Int)
    (appointment_treatment_raw dentist_raw fee_raw notes_raw : String)
    (hwf : WF db)
    (hn : pyStrip name_raw ≠ "") (hp : validate_phone (pyStrip phone_raw) = some phone)
    (ht : pyStrip appointment_treatment_raw ≠ "") (hd : pyStrip dentist_raw ≠ "") :
    (findPatientByPhone db phone = none →
      ∃ db₁, savePatientAndAppointment db name_raw phone_raw patient_treatment_raw
          teeth_location app_date appointment_treatment_raw dentist_raw fee_raw notes_raw
        = .ok db₁ ∧
        db₁.patients = db.patients ++
          [⟨db.nextPatientId, pyStrip name_raw, phone, pyStrip patient_treatment_raw,
            teeth_location⟩]) ∧
    (∀ p, findPatientByPhone db phone = some p →
      ∃ db₁, savePatientAndAppointment db name_raw phone_raw patient_treatment_raw
          teeth_location app_date appointment_treatment_raw dentist_raw fee_raw notes_raw
        = .ok db₁ ∧
        db₁.patients.length = db.patients.length ∧
        findPatientByPhone db₁ phone = some
          { p with
              patient_name := pyStrip name_raw
              treatment_type := pyStrip patient_treatment_raw
              teeth_location := teeth_location } ∧
        (∀ q ∈ db.patients, q.phone_number ≠ phone → q ∈ db₁.patients)) ∧
    (findPatientByPhone db phone = none →
      ∀ (name_raw2 patient_treatment_raw2 teeth_location2 : String) (app_date2 : Int)
        (appointment_treatment_raw2 dentist_raw2 fee_raw2 notes_raw2 : String),
        pyStrip name_raw2 ≠ "" → pyStrip appointment_treatment_raw2 ≠ "" →
        pyStrip dentist_raw2 ≠ "" →
        ∃ db₁ db₂,
          savePatientAndAppointment db name_raw phone_raw patient_treatment_raw
            teeth_location app_date appointment_treatment_raw dentist_raw fee_raw notes_raw
            = .ok db₁ ∧
          savePatientAndAppointment db₁ name_raw2 phone_raw patient_treatment_raw2
            teeth_location2 app_date2 appointment_treatment_raw2 dentist_raw2 fee_raw2
            notes_raw2 = .ok db₂ ∧
          (db₂.patients.filter (fun q => q.phone_number = phone)).length = 1 ∧
          (findPatientByPhone db₂ phone).map (fun q => q.patient_name)
            = some (pyStrip name_raw2)) := by
  refine ⟨?_, ?_, ?_⟩
  · -- (i) create
    intro h0
    refine ⟨_, savePatientAndAppointment_valid db patient_treatment_raw teeth_location
      app_date fee_raw notes_raw hn hp ht hd, ?_⟩
    rw [saveCore_none db _ _ _ _ _ _ _ _ _ h0]
  · -- (ii) overwrite in place
    intro p hfound
    refine ⟨_, savePatientAndAppointment_valid db patient_treatment_raw teeth_location
      app_date fee_raw notes_raw hn hp ht hd, ?_, ?_, ?_⟩
    · rw [saveCore_some db _ _ _ _ _ _ _ _ _ p hfound]
      exact List.length_map _ _
    · rw [saveCore_some db _ _ _ _ _ _ _ _ _ p hfound]
      show (db.patients.map _).find? _ = _
      have hpmem : p ∈ db.patients := List.mem_of_find?_eq_some hfound
      have hphone : p.phone_number = phone := by
        have := List.find?_some hfound
        simpa using this
      refine find?_map_update _ hfound ?_ (if_pos rfl) (by simp [hphone])
      intro q hq hqp
      have hid : q.id ≠ p.id := fun he =>
        hqp (List.inj_on_of_nodup_map hwf.2.1 hq hpmem he)
      exact if_neg hid
    · intro q hq hqphone
      rw [saveCore_some db _ _ _ _ _ _ _ _ _ p hfound]
      have hphone : p.phone_number = phone := by
        have := List.find?_some hfound
        simpa using this
      have hqp : q ≠ p := fun he => hqphone (he ▸ hphone)
      have hid : q.id ≠ p.id := fun he =>
        hqp (List.inj_on_of_nodup_map hwf.2.1 hq (List.mem_of_find?_eq_some hfound) he)
      exact List.mem_map.mpr ⟨q, hq, if_neg hid⟩
  · -- (iii) run twice
    intro h0 name_raw2 patient_treatment_raw2 teeth_location2 app_date2
      appointment_treatment_raw2 dentist_raw2 fee_raw2 notes_raw2 hn2 ht2 hd2
    have hrun1 := savePatientAndAppointment_valid db patient_treatment_raw teeth_location
      app_date fee_raw notes_raw hn hp ht hd
    rw [saveCore_none db _ _ _ _ _ _ _ _ _ h0] at hrun1
    set new1 : Patient := ⟨db.nextPatientId, pyStrip name_raw, phone,
      pyStrip patient_treatment_raw, teeth_location⟩ with hnew1
    set db1 : DB := ⟨db.patients ++ [new1],
      db.appointments ++ [⟨db.nextAppointmentId, app_date,
        pyStrip appointment_treatment_raw, pyStrip dentist_raw,
        validate_fee (pyStrip fee_raw), pyStrip notes_raw, db.nextPatientId⟩],
      db.nextPatientId + 1, db.nextAppointmentId + 1⟩ with hdb1
    have hfind1 : findPatientByPhone db1 phone = some new1 := by
      show (db.patients ++ [new1]).find? (fun q => q.phone_number = phone) = some new1
      rw [find?_append_none h0, List.find?_cons]
      simp
    have hrun2 := savePatientAndAppointment_valid db1 patient_treatment_raw2 teeth_location2
      app_date2 fee_raw2 notes_raw2 hn2 hp ht2 hd2
    rw [saveCore_some db1 _ _ _ _ _ _ _ _ _ new1 hfind1] at hrun2
    set upd2 : Patient :=
      { new1 with
          patient_name := pyStrip name_raw2
          treatment_type := pyStrip patient_treatment_raw2
          teeth_location := teeth_location2 } with hupd2
    have hmap : db1.patients.map
        (fun q => if q.id = new1.id then upd2 else q) = db.patients ++ [upd2] := by
      show (db.patients ++ [new1]).map _ = _
      rw [List.map_append]
      congr 1
      · refine (List.map_congr_left ?_).trans (List.map_id db.patients)
        intro q hq
        have : q.id ≠ new1.id := Nat.ne_of_lt (hwf.1 q hq)
        exact if_neg this
      · simp
    rw [hmap] at hrun2
    refine ⟨db1, _, hrun1, hrun2, ?_, ?_⟩
    · show ((db.patients ++ [upd2]).filter (fun q => q.phone_number = phone)).length = 1
      rw [List.filter_append, filter_phone_eq_nil h0]
      simp [hupd2, hnew1]
    · show ((db.patients ++ [upd2]).find?
        (fun q => q.phone_number = phone)).map (fun q => q.patient_name)
        = some (pyStrip name_raw2)
      rw [find?_append_none h0, List.find?_cons]
      simp [hupd2, hnew1]

theorem c1_witness :
    WF emptyDB ∧
    ∃ db₁ db₂,
      savePatientAndAppointment emptyDB "Ann" "+12345678" "Cleaning" "" 0 "Filling"
        "Mohamed" "25.5" "" = .ok db₁ ∧
      savePatientAndAppointment db₁ "Bob" "+12345678" "Crown" "" 1 "Whitening"
        "Noha" "" "" = .ok db₂ ∧
      (db₂.patients.filter (fun q => q.phone_number = "+12345678")).length = 1 ∧
      (findPatientByPhone db₂ "+12345678").map (fun q => q.patient_name)
        = some (pyStrip "Bob") :=
  ⟨by decide,
    (c1_upsert emptyDB "+12345678" "Ann" "+12345678" "Cleaning" "" 0 "Filling" "Mohamed"
        "25.5" "" (by decide) (by decide) (by decide) (by decide) (by decide)).2.2
      (by decide) "Bob" "Crown" "" 1 "Whitening" "Noha" "" "" (by decide) (by decide)
      (by decide)⟩

/-! ### C7: search semantics and per-patient appointment ordering -/

theorem char_toNat_ofNat {n : Nat} (h : n.isValidChar) : (Char.ofNat n).toNat = n := by
  unfold Char.ofNat
  rw [dif_pos h]
  rfl

/-- Lower-casing a character cannot produce a character with code point
below 97 (such as the wildcards `%` = 37 and `_` = 95) unless the input
already was that character. -/
theorem toLower_fix {c w : Char} (hw : w.toNat < 97) (h : Char.toLower c = w) : c = w := by
  simp only [Char.toLower] at h
  split at h
  · exfalso
    rename_i hc
    have h2 := congrArg Char.toNat h
    rw [char_toNat_ofNat (Or.inl (by omega))] at h2
    omega
  · exact h

theorem not_mem_lowerChars {l : List Char} {w : Char} (hw : w.toNat < 97)
    (h : w ∉ l) : w ∉ lowerChars l := by
  intro hml
  obtain ⟨c, hc, hcw⟩ := List.mem_map.mp hml
  exact h (toLower_fix hw hcw ▸ hc)

/-- A wildcard-free literal followed by `%` LIKE-matches exactly the texts
that start with the literal. -/
theorem likeMatch_lit_pre : ∀ (lit : List Char), '%' ∉ lit → '_' ∉ lit →
    ∀ s, likeMatch (lit ++ ['%']) s = true ↔ lit <+: s := by
  intro lit
  induction lit with
  | nil =>
    intro _ _ s
    have hunf : likeMatch (([] : List Char) ++ ['%']) s
        = (s.tails).any (fun x => likeMatch [] x) := by
      simp [likeMatch]
    constructor
    · intro _
      exact ⟨s, rfl⟩
    · intro _
      rw [hunf, List.any_eq_true]
      exact ⟨[], (List.mem_tails [] s).mpr ⟨s, by simp⟩, rfl⟩
  | cons c cs ih =>
    intro h1 h2 s
    have hc1 : c ≠ '%' := fun he => h1 (he ▸ List.mem_cons_self c cs)
    have hc2 : c ≠ '_' := fun he => h2 (he ▸ List.mem_cons_self c cs)
    have hcs1 : '%' ∉ cs := fun hm => h1 (List.mem_cons_of_mem c hm)
    have hcs2 : '_' ∉ cs := fun hm => h2 (List.mem_cons_of_mem c hm)
    cases s with
    | nil =>
      have hunf : likeMatch ((c :: cs) ++ ['%']) [] = false := by
        simp [likeMatch, hc1]
      rw [hunf]
      constructor
      · intro hf
        exact absurd hf (by simp)
      · rintro ⟨t, ht⟩
        simp at ht
    | cons d ds =>
      have hunf : likeMatch ((c :: cs) ++ ['%']) (d :: ds)
          = ((c = '_' || c = d) && likeMatch (cs ++ ['%']) ds) := by
        simp [likeMatch, hc1]
      rw [hunf]
      constructor
      · intro hb
        simp only [Bool.and_eq_true, Bool.or_eq_true, decide_eq_true_eq] at hb
        obtain ⟨hcd | hcd, hrec⟩ := hb
        · exact absurd hcd hc2
        · subst hcd
          obtain ⟨t, ht⟩ := (ih hcs1 hcs2 ds).mp hrec
          exact ⟨t, by simp [ht]⟩
      · rintro ⟨t, ht⟩
        rw [List.cons_append] at ht
        injection ht with hcd hds
        subst hcd
        simp only [Bool.and_eq_true, Bool.or_eq_true, decide_eq_true_eq]
        exact ⟨Or.inr (by trivial), (ih hcs1 hcs2 ds).mpr ⟨t, hds⟩⟩

/-- The LIKE pattern built by the search — a wildcard-free literal wrapped
in `%` — matches exactly the texts containing the literal. -/
theorem likeMatch_pattern_infix (lit : List Char) (h1 : '%' ∉ lit) (h2 : '_' ∉ lit)
    (t : List Char) :
    likeMatch ('%' :: (lit ++ ['%'])) t = true ↔ List.IsInfix lit t := by
  have hunf : likeMatch ('%' :: (lit ++ ['%'])) t
      = (t.tails).any (fun s => likeMatch (lit ++ ['%']) s) := by
    simp [likeMatch]
  rw [hunf, List.any_eq_true]
  constructor
  · rintro ⟨s, hs, hls⟩
    obtain ⟨u, hu⟩ := (List.mem_tails s t).mp hs
    obtain ⟨v, hv⟩ := (likeMatch_lit_pre lit h1 h2 s).mp hls
    exact ⟨u, v, by rw [← hu, ← hv]; simp⟩
  · rintro ⟨u, v, huv⟩
    refine ⟨lit ++ v, (List.mem_tails (lit ++ v) t).mpr ⟨u, by rw [← huv]; simp⟩, ?_⟩
    exact (likeMatch_lit_pre lit h1 h2 (lit ++ v)).mpr ⟨v, rfl⟩

/-- For terms free of the LIKE wildcards `%` and `_`, the search filter is
literal case-insensitive containment. -/
theorem ciContains_iff_infix {hay needle : String}
    (h1 : '%' ∉ needle.data) (h2 : '_' ∉ needle.data) :
    ciContains hay needle = true ↔
      List.IsInfix (lowerChars needle.data) (lowerChars hay.data) :=
  likeMatch_pattern_infix (lowerChars needle.data)
    (not_mem_lowerChars (by decide) h1) (not_mem_lowerChars (by decide) h2)
    (lowerChars hay.data)

/-- For wildcard-free terms, the implementation's boolean row filter agrees
with the spec's containment condition. -/
theorem patientMatches_iff (db : DB) (q : String) (p : Patient)
    (h1 : '%' ∉ q.data) (h2 : '_' ∉ q.data) :
    patientMatches db q p = true ↔ specMatches db q p := by
  unfold patientMatches specMatches appointmentsOf
  simp only [Bool.or_eq_true, List.any_eq_true, List.mem_filter,
    ciContains_iff_infix h1 h2]
  constructor
  · rintro (((( h | h ) | h ) | h ) | ⟨a, ⟨ha, hpid⟩, hinf⟩)
    · exact Or.inl h
    · exact Or.inr (Or.inl h)
    · exact Or.inr (Or.inr (Or.inl h))
    · exact Or.inr (Or.inr (Or.inr (Or.inl h)))
    · exact Or.inr (Or.inr (Or.inr (Or.inr ⟨a, ha, by simpa using hpid, hinf⟩)))
  · rintro (h | h | h | h | ⟨a, ha, hpid, hinf⟩)
    · exact Or.inl (Or.inl (Or.inl (Or.inl h)))
    · exact Or.inl (Or.inl (Or.inl (Or.inr h)))
    · exact Or.inl (Or.inl (Or.inr h))
    · exact Or.inl (Or.inr h)
    · exact Or.inr ⟨a, ⟨ha, by simpa using hpid⟩, hinf⟩

def dbAnnBob : DB := ⟨[annPatient, ⟨2, "Bob", "+20000000", "Filling", ""⟩], [], 3, 1⟩

/-- C7 is false of the code (counterexample): the raw search term goes
unescaped into the SQL LIKE pattern, so a `%` inside it is a live wildcard.
Searching for the term `"%"` returns the patient "Ann" although none of her
fields (nor any owned appointment's treatment type) literally contains `%`
— contradicting "returns exactly the patients whose name, phone, treatment
type, teeth location, or at least one owned appointment's treatment type
case-insensitively contains the term". -/
theorem c7_counterexample :
    annPatient ∈ (show_records dbAnnBob (some "%")).map Prod.fst ∧
    ¬ specMatches dbAnnBob "%" annPatient :=
  ⟨by decide, by decide⟩

/-- C7 (amended): `show_records` with an empty or absent term returns all
patients.  A non-empty term is interpreted as the unescaped SQL LIKE
pattern `%term%`: the result is exactly the patients whose name, phone,
treatment type, teeth location, or at least one owned appointment's
treatment type LIKE-matches it (`patientMatches`); for terms containing
neither `%` nor `_` this coincides with case-insensitive containment of
the term (`specMatches`).  Every returned patient's appointment list is
that patient's appointments in ascending date order. -/
theorem c7_search :
    (∀ db : DB, (show_records db none).map Prod.fst = db.patients ∧
      (show_records db (some "")).map Prod.fst = db.patients) ∧
    (∀ (db : DB) (q : String), q ≠ "" →
      ∀ p : Patient, p ∈ (show_records db (some q)).map Prod.fst ↔
        p ∈ db.patients ∧ patientMatches db q p = true) ∧
    (∀ (db : DB) (q : String), q ≠ "" → '%' ∉ q.data → '_' ∉ q.data →
      ∀ p : Patient, p ∈ (show_records db (some q)).map Prod.fst ↔
        p ∈ db.patients ∧ specMatches db q p) ∧
    (∀ (db : DB) (query : Option String) (e : Patient × List Appointment),
      e ∈ show_records db query →
        List.Sorted dateLe e.2 ∧ e.2.Perm (appointmentsOf db e.1.id)) := by
  have hmem : ∀ (db : DB) (q : String), q ≠ "" →
      ∀ p : Patient, p ∈ (show_records db (some q)).map Prod.fst ↔
        p ∈ db.patients ∧ patientMatches db q p = true := by
    intro db q hq p
    simp only [show_records]
    rw [if_neg hq]
    simp only [List.map_map, List.mem_map, Function.comp_def, List.mem_filter]
    constructor
    · rintro ⟨r, ⟨hr, hm⟩, he⟩
      exact he ▸ ⟨hr, hm⟩
    · rintro ⟨hp, hm⟩
      exact ⟨p, ⟨hp, hm⟩, rfl⟩
  refine ⟨?_, hmem, ?_, ?_⟩
  · intro db
    constructor
    · simp [show_records, List.map_map, Function.comp_def]
    · simp [show_records, List.map_map, Function.comp_def]
  · intro db q hq h1 h2 p
    rw [hmem db q hq p, patientMatches_iff db q p h1 h2]
  · intro db query e he
    unfold show_records at he
    have : ∃ p ∈ (match query with
        | some q => if q = "" then db.patients else db.patients.filter (patientMatches db q)
        | none => db.patients),
        (p, (appointmentsOf db p.id).insertionSort dateLe) = e := List.mem_map.mp he
    obtain ⟨p, _, hpe⟩ := this
    cases hpe
    exact ⟨List.sorted_insertionSort dateLe _, List.perm_insertionSort dateLe _⟩

theorem c7_witness :
    annPatient ∈ (show_records dbAnnBob (some "clean")).map Prod.fst ∧
    (⟨2, "Bob", "+20000000", "Filling", ""⟩ : Patient)
      ∉ (show_records dbAnnBob (some "clean")).map Prod.fst := by
  constructor
  · exact (c7_search.2.2.1 dbAnnBob "clean" (by decide) (by decide) (by decide)
      annPatient).mpr ⟨by decide, Or.inr (Or.inr (Or.inl (by decide)))⟩
  · intro h
    have := (c7_search.2.2.1 dbAnnBob "clean" (by decide) (by decide) (by decide) _).mp h
    exact absurd this (by decide)

end DintistClinic
